import Mathlib

/-!
Verification of the LED packet protocol core of the `solr-led` repository
(`solr-cli.py` and `solr-led.py`).

The Python code is shallowly embedded:

* a Python `dict` from LED id to color (an insertion-ordered map with unique
  keys) becomes an association list `List (Nat × List Nat)` together with a
  `Nodup` hypothesis on its keys where a claim needs the dict key-uniqueness
  invariant;
* `bytes` values become `List Nat` with every element below 256;
* Python `float` values (IEEE-754 binary64) become exact dyadic rationals
  `Dyadic` with explicit round-to-nearest-even to 53 significand bits after
  every arithmetic operation, which is exactly the binary64 semantics for the
  magnitudes appearing in this program (no overflow, no subnormals);
* the fallible `hex_to_rgb` becomes an `Option`-returning function;
* the `main` driver of `solr-cli.py` becomes a trace-producing function over an
  explicit environment, recording USB resource events (detach, claim, write,
  release, reattach) so that resource-handling claims are about traces.
-/

/-! ## Packet encoder (`send_led_packet` in both solr-cli.py and solr-led.py)

`send_led_packet(dev, led_colors)` splits the dict into the thumbstick entry
(key `0x00`) and the others, writes one packet per thumbstick entry with
header `01 88 81 FF`, then iterates over the *keys* of the other entries in
steps of two (`for i in range(0, len(keys), 2)`), rebuilding each batch dict by
key lookup, and writes one packet per batch with header `01 08 85 FF` followed
by `led_id` byte and the color bytes of each entry of the batch.

`encode` below is the pure packet-building part of that function: the list of
packets it writes, in the order it writes them.
-/

/-- A Python dict from LED id to RGB color, as an insertion-ordered
association list.  The dict invariant (unique keys) is carried as a `Nodup`
hypothesis in the theorems that need it. -/
abbrev LedColorMap := List (Nat × List Nat)

/-- Header of the thumbstick packet: `bytes([0x01, 0x88, 0x81, 0xFF])`. -/
def headerThumb : List Nat := [0x01, 0x88, 0x81, 0xFF]

/-- Header of a batch packet: `bytes([0x01, 0x08, 0x85, 0xFF])`. -/
def headerBatch : List Nat := [0x01, 0x08, 0x85, 0xFF]

/-- `thumbstick_colors = {k: v for k, v in led_colors.items() if k == 0x00}`. -/
def thumbEntries (m : LedColorMap) : LedColorMap :=
  m.filter (fun e => e.1 == 0x00)

/-- `other_colors = {k: v for k, v in led_colors.items() if k != 0x00}`. -/
def otherEntries (m : LedColorMap) : LedColorMap :=
  m.filter (fun e => e.1 != 0x00)

/-- The slices `keys[i:i+2]` produced by `for i in range(0, len(keys), 2)`:
the list cut into chunks of two, the last chunk possibly a singleton. -/
def chunks2 {α : Type} : List α → List (List α)
  | [] => []
  | [a] => [[a]]
  | a :: b :: rest => [a, b] :: chunks2 rest

/-- Dict lookup `other_colors[k]`; total here because the code only looks up
keys obtained from `other_colors.keys()`. -/
def lookupColor (m : LedColorMap) (k : Nat) : List Nat :=
  (m.lookup k).getD []

/-- The packets written by the thumbstick loop, in order:
`bytes([0x01, 0x88, 0x81, 0xFF]) + bytes([led_id]) + color`. -/
def thumbPackets (m : LedColorMap) : List (List Nat) :=
  (thumbEntries m).map (fun e => headerThumb ++ [e.1] ++ e.2)

/-- The packets written by the batch loop, in order.  Exactly as in the
source: the key list of `other_colors` is cut into slices of two and each
slice is turned back into entries by dict lookup. -/
def batchPackets (m : LedColorMap) : List (List Nat) :=
  let other := otherEntries m
  (chunks2 (other.map Prod.fst)).map (fun ks =>
    headerBatch ++ (ks.map (fun k => k :: lookupColor other k)).flatten)

/-- All packets written by one `send_led_packet` call, in write order. -/
def encode (m : LedColorMap) : List (List Nat) :=
  thumbPackets m ++ batchPackets m

/-- The serialized form of one batch group of entries: header then, per entry,
the id byte followed by the color bytes. -/
def mkBatch (g : LedColorMap) : List Nat :=
  headerBatch ++ (g.map (fun e => e.1 :: e.2)).flatten

/-- Dict well-formedness used by the claims: unique keys, every LED id a
single byte, every color exactly three bytes. -/
def WFMap (m : LedColorMap) : Prop :=
  (m.map Prod.fst).Nodup ∧ ∀ e ∈ m, e.1 < 256 ∧ e.2.length = 3

/-- A well-formed wire packet per the spec data model: one of the two fixed
4-byte headers followed by one or more serialized (id, 3-byte color) pairs. -/
def WFPacket (p : List Nat) : Prop :=
  ∃ h entries, (h = headerThumb ∨ h = headerBatch) ∧ entries ≠ [] ∧
    (∀ e ∈ (entries : LedColorMap), e.1 < 256 ∧ e.2.length = 3) ∧
    p = h ++ (entries.map (fun e => e.1 :: e.2)).flatten

/-! ## Color model (`hex_to_rgb`)

`hex_to_rgb` raises `ValueError` when the string length differs from 6 and
otherwise returns `bytes.fromhex(hex_str)`.  `bytes.fromhex` (CPython) skips
ASCII whitespace between byte pairs, then requires two immediately adjacent
hexadecimal digits per byte; anything else raises `ValueError`.  Failure is
modelled as `none`. -/

/-- ASCII whitespace as skipped by CPython `bytes.fromhex`
(`Py_ISSPACE`: space, tab, newline, vertical tab, form feed, carriage
return). -/
def isPySpace (c : Char) : Bool :=
  c == ' ' || c == '\t' || c == '\n' || c == '\x0b' || c == '\x0c' || c == '\r'

/-- Hexadecimal digit test. -/
def isHexDigitCh (c : Char) : Bool :=
  ('0' ≤ c && c ≤ '9') || ('a' ≤ c && c ≤ 'f') || ('A' ≤ c && c ≤ 'F')

/-- Value of a hexadecimal digit. -/
def hexVal (c : Char) : Nat :=
  if '0' ≤ c && c ≤ '9' then c.toNat - '0'.toNat
  else if 'a' ≤ c && c ≤ 'f' then c.toNat - 'a'.toNat + 10
  else c.toNat - 'A'.toNat + 10

/-- CPython `bytes.fromhex`, one character at a time.  The first argument is
the pending high nibble: between byte pairs (`none`) whitespace is skipped;
after a high nibble (`some hi`) the low nibble must follow immediately. -/
def fromHexAux : Option Nat → List Char → Option (List Nat)
  | none, [] => some []
  | some _, [] => none
  | none, c :: rest =>
      if isPySpace c then fromHexAux none rest
      else if isHexDigitCh c then fromHexAux (some (hexVal c)) rest
      else none
  | some hi, c :: rest =>
      if isHexDigitCh c then
        (fromHexAux none rest).map (fun bs => (hi * 16 + hexVal c) :: bs)
      else none

/-- `bytes.fromhex(s)`. -/
def bytesFromHex (s : List Char) : Option (List Nat) :=
  fromHexAux none s

/-- `hex_to_rgb` (solr-cli.py lines 52-55, solr-led.py lines 58-61):
length check, then `bytes.fromhex`. -/
def hex_to_rgb (s : List Char) : Option (List Nat) :=
  if s.length ≠ 6 then none else bytesFromHex s

/-! ## IEEE-754 binary64 model

The animation loops do Python `float` arithmetic.  A binary64 value in the
range used here (magnitudes between roughly `2^-60` and `2^3`; no overflow,
no subnormals, no NaN) is an integer times a power of two.  `Dyadic` holds
such a value unreduced; every arithmetic operation first computes the exact
integer result and then rounds the significand to 53 bits, round half to
even, which is exactly IEEE-754 round-to-nearest addition, subtraction and
multiplication on this range. -/

/-- An exact dyadic rational `m * 2^e`, the value of a binary64 number. -/
structure Dyadic where
  m : Int
  e : Int
  deriving DecidableEq

/-- Bit length of a natural number, fuelled for kernel reduction; exact for
`n < 2^fuel`. -/
def bitLen : Nat → Nat → Nat
  | 0, _ => 0
  | fuel + 1, n => if n = 0 then 0 else bitLen fuel (n / 2) + 1

/-- Round a nonnegative exact value `m * 2^e` to 53 significand bits,
round half to even.  All numbers in this development are far below `2^500`,
so fuel 500 makes `bitLen` exact. -/
def roundPos (m : Nat) (e : Int) : Dyadic :=
  let L := bitLen 500 m
  if L ≤ 53 then ⟨Int.ofNat m, e⟩
  else
    let k := L - 53
    let q := m / 2 ^ k
    let r := m % 2 ^ k
    let half := 2 ^ (k - 1)
    let q2 := if half < r || (r == half && q % 2 == 1) then q + 1 else q
    ⟨Int.ofNat q2, e + Int.ofNat k⟩

/-- Round an exact value `m * 2^e` to binary64 (53-bit significand,
round to nearest, ties to even); sign handled symmetrically. -/
def roundD (m : Int) (e : Int) : Dyadic :=
  if 0 ≤ m then roundPos m.toNat e
  else
    let r := roundPos (-m).toNat e
    ⟨-r.m, r.e⟩

/-- Binary64 addition: exact sum, then rounding. -/
def fadd (a b : Dyadic) : Dyadic :=
  if a.e ≤ b.e then roundD (a.m + b.m * 2 ^ (b.e - a.e).toNat) a.e
  else roundD (a.m * 2 ^ (a.e - b.e).toNat + b.m) b.e

/-- Binary64 negation (exact). -/
def fneg (a : Dyadic) : Dyadic := ⟨-a.m, a.e⟩

/-- Binary64 subtraction. -/
def fsub (a b : Dyadic) : Dyadic := fadd a (fneg b)

/-- Binary64 multiplication: exact product, then rounding. -/
def fmul (a b : Dyadic) : Dyadic := roundD (a.m * b.m) (a.e + b.e)

/-- Value comparison `a <= b` on dyadics (Python `<=` on floats). -/
def dble (a b : Dyadic) : Bool :=
  if a.e ≤ b.e then decide (a.m ≤ b.m * 2 ^ (b.e - a.e).toNat)
  else decide (a.m * 2 ^ (a.e - b.e).toNat ≤ b.m)

/-- Value comparison `a < b` on dyadics (Python `<` on floats). -/
def dblt (a b : Dyadic) : Bool :=
  if a.e ≤ b.e then decide (a.m < b.m * 2 ^ (b.e - a.e).toNat)
  else decide (a.m * 2 ^ (a.e - b.e).toNat < b.m)

/-- Value equality on dyadics (representations are not unique). -/
def deq (a b : Dyadic) : Bool :=
  if a.e ≤ b.e then decide (a.m = b.m * 2 ^ (b.e - a.e).toNat)
  else decide (a.m * 2 ^ (a.e - b.e).toNat = b.m)

/-- Python `int(x)` on a float: truncation toward zero. -/
def dtrunc (a : Dyadic) : Int :=
  if 0 ≤ a.e then a.m * 2 ^ a.e.toNat
  else if 0 ≤ a.m then Int.ofNat (a.m.toNat / 2 ^ (-a.e).toNat)
  else -Int.ofNat ((-a.m).toNat / 2 ^ (-a.e).toNat)

/-- Exact float of a small natural number (Python `int` to `float`). -/
def dOfNat (n : Nat) : Dyadic := ⟨Int.ofNat n, 0⟩

/-- The binary64 value of the literal `0.0`. -/
def d0 : Dyadic := ⟨0, 0⟩

/-- The binary64 value of the literal `1.0` (exact). -/
def d1 : Dyadic := ⟨1, 0⟩

/-- The binary64 value of the literal `0.1`:
`3602879701896397 * 2^-55` (the double nearest 1/10). -/
def dLit01 : Dyadic := ⟨3602879701896397, -55⟩

/-- The binary64 value of the literal `0.05`:
`3602879701896397 * 2^-56` (the double nearest 1/20). -/
def dLit005 : Dyadic := ⟨3602879701896397, -56⟩

/-- The binary64 value of the literal `0.01`:
`5764607523034235 * 2^-59` (the double nearest 1/100). -/
def dLit001 : Dyadic := ⟨5764607523034235, -59⟩

/-- The binary64 value of the literal `6.0` (exact). -/
def dLit6 : Dyadic := ⟨6, 0⟩

/-- The binary64 value of the literal `255` as a float (exact). -/
def dLit255 : Dyadic := ⟨255, 0⟩

/-! ## `frange` and the animation loops (solr-cli.py lines 57-94)

`frange(start, stop, step)` yields `start` and replaces it by
`start + step` while `start <= stop` (for positive step) or `start >= stop`
(otherwise).  The loops here always terminate, so a fuel large enough never
to be exhausted gives exactly the yielded list; fuel independence is proved
for the concrete calls. -/

/-- The list of values yielded by `frange(start, stop, step)`, fuelled. -/
def frange (fuel : Nat) (start stop step : Dyadic) : List Dyadic :=
  match fuel with
  | 0 => []
  | f + 1 =>
    if (if dblt d0 step then dble start stop else dble stop start) then
      start :: frange f (fadd start step) stop step
    else []

/-- The 18 values yielded by the fade-up loop `frange(0.1, 1.0, 0.05)`. -/
def breathUp : List Dyadic := frange 100 dLit01 d1 dLit005

/-- The 18 values yielded by the fade-down loop `frange(1.0, 0.1, -0.05)`. -/
def breathDown : List Dyadic := frange 100 d1 dLit01 (fneg dLit005)

/-- One full breathing period: the fade-up values then the fade-down values,
as iterated forever by both animation loops. -/
def breathPeriod : List Dyadic := breathUp ++ breathDown

/-- The brightness value of animation frame `k` (the loops repeat the same
period forever, with fresh literals each period). -/
def breathV (k : Nat) : Dyadic := breathPeriod.getD (k % breathPeriod.length) d0

/-- `bytes([int(c * v) for c in base_rgb])`: channel-wise binary64 product
with the brightness, truncated toward zero (solr-cli.py line 67/73). -/
def breathScaled (base : List Nat) (v : Dyadic) : List Nat :=
  base.map (fun c => (dtrunc (fmul (dOfNat c) v)).toNat)

/-- One hue update of `rainbow_breathing_effect` (solr-cli.py lines 90-92):
`hue += 0.01`, then `if hue > 1.0: hue = 0.0`. -/
def hueStep (h : Dyadic) : Dyadic :=
  let h2 := fadd h dLit001
  if dblt d1 h2 then d0 else h2

/-- The hue entering frame `n` (`hue = 0.0` before the loop; one update per
frame). -/
def hueAt (n : Nat) : Dyadic := hueStep^[n] d0

/-- Check a predicate along the first `n` states of an iteration, in one
forward pass. -/
def allIter (f : Dyadic → Dyadic) (p : Dyadic → Bool) : Nat → Dyadic → Bool
  | 0, _ => true
  | n + 1, h => p h && allIter f p n (f h)

/-- Count the states among the first `n` of an iteration satisfying a
predicate, in one forward pass. -/
def countIter (f : Dyadic → Dyadic) (p : Dyadic → Bool) : Nat → Dyadic → Nat
  | 0, _ => 0
  | n + 1, h => (if p h then 1 else 0) + countIter f p n (f h)

/-- `colorsys.hsv_to_rgb(h, s, v)` from the CPython standard library,
in binary64 arithmetic. -/
def hsv_to_rgb (h s v : Dyadic) : Dyadic × Dyadic × Dyadic :=
  if deq s d0 then (v, v, v)
  else
    let i0 := dtrunc (fmul h dLit6)
    let f := fsub (fmul h dLit6) ⟨i0, 0⟩
    let p := fmul v (fsub d1 s)
    let q := fmul v (fsub d1 (fmul s f))
    let t := fmul v (fsub d1 (fmul s (fsub d1 f)))
    let i := i0 % 6
    if i = 0 then (v, t, p)
    else if i = 1 then (q, v, p)
    else if i = 2 then (p, v, t)
    else if i = 3 then (p, q, v)
    else if i = 4 then (t, p, v)
    else (v, p, q)

/-- `bytes([int(r * 255), int(g * 255), int(b * 255)])` for the rainbow frame
color (solr-cli.py lines 85-86). -/
def rainbowScaled (hue v : Dyadic) : List Nat :=
  let c := hsv_to_rgb hue d1 v
  [(dtrunc (fmul c.1 dLit255)).toNat,
   (dtrunc (fmul c.2.1 dLit255)).toNat,
   (dtrunc (fmul c.2.2 dLit255)).toNat]

/-! ## LED registry and button resolution (solr-cli.py lines 14-32, 167-180) -/

/-- `BUTTON_TO_LED` (solr-cli.py lines 14-24). -/
def BUTTON_TO_LED : List (Int × Nat) :=
  [(0, 0x00), (5, 0x11), (6, 0x10), (7, 0x12), (8, 0x13),
   (16, 0x08), (17, 0x07), (18, 0x09), (19, 0x0A)]

/-- `GROUPS` (solr-cli.py lines 27-32); the two button groups are built by
`BUTTON_TO_LED` lookup exactly as in the source. -/
def GROUPS : List (String × List Nat) :=
  [("tm_logo", [0x01, 0x02, 0x03]),
   ("upper_circles", [0x04, 0x05, 0x06, 0x0B, 0x0C, 0x0D, 0x0E, 0x0F]),
   ("left_buttons",
     ([5, 6, 7, 8] : List Int).map (fun b => (BUTTON_TO_LED.lookup b).getD 0)),
   ("right_buttons",
     ([17, 16, 19, 18] : List Int).map (fun b => (BUTTON_TO_LED.lookup b).getD 0))]

/-- The button-resolution loop of `main` (solr-cli.py lines 175-180): walk
the parsed button numbers in order; at the first number with no mapping stop
and report that number; otherwise collect the mapped LED ids in order. -/
def resolveButtons : List Int → Except Int (List Nat)
  | [] => Except.ok []
  | b :: rest =>
    match BUTTON_TO_LED.lookup b with
    | none => Except.error b
    | some led =>
      match resolveButtons rest with
      | Except.error b2 => Except.error b2
      | Except.ok leds => Except.ok (led :: leds)

/-! ## The `main` driver of solr-cli.py as a resource-event trace

`main` (lines 117-200) is embedded from the `--list` check onward as a
function from the parsed arguments and an environment (device discovery and
transport behavior) to the list of USB resource events it performs.  Prints
and sleeps carry no events.  The `try`/`except Exception`/`finally` at lines
182-200 is modelled by running the body, then always appending the release
and reattach events; an early `return` before that block simply ends the
trace. -/

/-- USB resource events performed by `main`. -/
inductive Ev where
  | detach
  | claim
  | write (p : List Nat)
  | release
  | reattach
  deriving DecidableEq

/-- Environment: device discovery, kernel-driver state, transport behavior.
`failAtWrite = some i` makes the `i`-th `dev.write` of the run raise
`USBError`; `interruptAfterFrames = n` delivers the `KeyboardInterrupt` of an
animation at the start of frame `n`. -/
structure Env where
  deviceFound : Bool
  kernelActive : Bool
  detachOk : Bool
  failAtWrite : Option Nat
  interruptAfterFrames : Nat

/-- The write loop of one `send_led_packet` call: one `dev.write` per encoded
packet, threading the run-global write counter; the failing write raises and
aborts the remaining packets of the call.  Returns the events, the next
counter value, and whether the call completed. -/
def sendLoop : List (List Nat) → Nat → Option Nat → List Ev × Nat × Bool
  | [], cnt, _ => ([], cnt, true)
  | p :: rest, cnt, failAt =>
    if failAt = some cnt then ([], cnt + 1, false)
    else
      let r := sendLoop rest (cnt + 1) failAt
      (Ev.write p :: r.1, r.2.1, r.2.2)

/-- Python dict construction `{led: color for led in leds}`: keys keep their
first-occurrence order and duplicates collapse (all values are equal here). -/
def dedupFirst : List Nat → List Nat
  | [] => []
  | x :: xs => x :: (dedupFirst xs).filter (fun y => y != x)

/-- `{led: color for led in leds}` with one fixed color. -/
def ledColorsDict (leds : List Nat) (c : List Nat) : LedColorMap :=
  (dedupFirst leds).map (fun l => (l, c))

/-- Run an animation loop for `n` more frames (`k` is the global frame index,
`cnt` the global write counter): each frame encodes and sends its color map;
the `KeyboardInterrupt` arriving at the start of frame `n` is caught by the
effect function, which returns normally; a transport failure inside a frame
propagates (`except KeyboardInterrupt` does not catch `USBError`). -/
def runFrames (frameMap : Nat → LedColorMap) (failAt : Option Nat) :
    Nat → Nat → Nat → List Ev × Bool
  | 0, _, _ => ([], true)
  | n + 1, k, cnt =>
    let s := sendLoop (encode (frameMap k)) cnt failAt
    if s.2.2 then
      let r := runFrames frameMap failAt n (k + 1) s.2.1
      (s.1 ++ r.1, r.2)
    else (s.1, false)

/-- Truthiness of an optional string argument (`if args.group:`): absent and
empty are both falsy. -/
def truthyStr : Option String → Bool
  | none => false
  | some s => !s.isEmpty

/-- Truthiness of the positional color argument. -/
def truthyChars : Option (List Char) → Bool
  | none => false
  | some s => !s.isEmpty

/-- The parsed command line.  `buttons` holds the comma-split items of the
`--buttons` string with each item's `int(b.strip())` result, `none` marking a
`ValueError`; an absent or empty (falsy) `--buttons` string is `none`.
argparse guarantees `group` and `buttons` are not both present and that a
present `group` is one of the (nonempty) `GROUPS` keys. -/
structure Args where
  listFlag : Bool
  device : Option String
  group : Option String
  buttons : Option (List (Option Int))
  breathing : Bool
  rainbow : Bool
  color : Option (List Char)

/-- `[int(b.strip()) for b in args.buttons.split(',')]`: the whole list
comprehension raises if any item does. -/
def traverseInts : List (Option Int) → Option (List Int)
  | [] => some []
  | none :: _ => none
  | some b :: rest => (traverseInts rest).map (fun bs => b :: bs)

/-- Lines 166-180: determine `leds_to_set`; `none` is an early `return`
(invalid button numbers, or an unknown button), reached after the interface
was claimed. -/
def ledsToSet (a : Args) : Option (List Nat) :=
  if truthyStr a.group then
    some ((GROUPS.lookup ((a.group).getD "")).getD [])
  else
    match a.buttons with
    | none => none
    | some items =>
      match traverseInts items with
      | none => none
      | some bs =>
        match resolveButtons bs with
        | Except.error _ => none
        | Except.ok leds => some leds

/-- The body of the `try:` at lines 182-192: its trace and whether it
finished without raising (an exception lands in `except Exception` either
way, and `finally` runs either way). -/
def tryBody (a : Args) (env : Env) (leds : List Nat) : List Ev × Bool :=
  if a.rainbow then
    runFrames (fun k => ledColorsDict leds (rainbowScaled (hueAt k) (breathV k)))
      env.failAtWrite env.interruptAfterFrames 0 0
  else if a.breathing then
    match hex_to_rgb ((a.color).getD []) with
    | none => ([], false)
    | some base =>
      runFrames (fun k => ledColorsDict leds (breathScaled base (breathV k)))
        env.failAtWrite env.interruptAfterFrames 0 0
  else
    match hex_to_rgb ((a.color).getD []) with
    | none => ([], false)
    | some c =>
      let s := sendLoop (encode (ledColorsDict leds c)) 0 env.failAtWrite
      (s.1, s.2.2)

/-- `main` of solr-cli.py from line 130 onward, as its USB event trace. -/
def cliMain (a : Args) (env : Env) : List Ev :=
  if a.listFlag then []
  else if a.device.isNone then []
  else if !truthyStr a.group && !(a.buttons).isSome then []
  else if a.breathing && a.rainbow then []
  else if (a.breathing || !a.rainbow) && !truthyChars a.color then []
  else if !env.deviceFound then []
  else
    let detachEvs := if env.kernelActive then [Ev.detach] else []
    if env.kernelActive && !env.detachOk then detachEvs
    else
      let pre := detachEvs ++ [Ev.claim]
      match ledsToSet a with
      | none => pre
      | some leds =>
        let body := tryBody a env leds
        pre ++ body.1 ++ [Ev.release, Ev.reattach]

/-- Concrete invocation `solr-cli.py --device right --buttons 1 FF0000`:
button 1 has no entry in `BUTTON_TO_LED`. -/
def argsUnknownButton : Args :=
  { listFlag := false, device := some "right", group := none,
    buttons := some [some 1], breathing := false, rainbow := false,
    color := some ['F', 'F', '0', '0', '0', '0'] }

/-- A benign environment: device present, kernel driver attached, detach
succeeds, no transport failure. -/
def envPlain : Env :=
  { deviceFound := true, kernelActive := true, detachOk := true,
    failAtWrite := none, interruptAfterFrames := 0 }

/-! ## Helper lemmas -/

theorem chunks2_flatten {α : Type} (l : List α) : (chunks2 l).flatten = l := by
  induction l using chunks2.induct with
  | case1 => rfl
  | case2 a => rfl
  | case3 a b rest ih => simp [chunks2, ih]

theorem chunks2_length {α : Type} (l : List α) :
    (chunks2 l).length = (l.length + 1) / 2 := by
  induction l using chunks2.induct with
  | case1 => simp [chunks2]
  | case2 a => simp [chunks2]
  | case3 a b rest ih => simp [chunks2, ih]; omega

theorem length_of_mem_chunks2 {α : Type} (l : List α) :
    ∀ g ∈ chunks2 l, g.length = 1 ∨ g.length = 2 := by
  induction l using chunks2.induct with
  | case1 => simp [chunks2]
  | case2 a => simp [chunks2]
  | case3 a b rest ih =>
    intro g hg
    rcases List.mem_cons.mp hg with hg | hg
    · simp [hg]
    · exact ih g hg

theorem chunks2_even {α : Type} (l : List α) (h : l.length % 2 = 0) :
    ∀ g ∈ chunks2 l, g.length = 2 := by
  induction l using chunks2.induct with
  | case1 => simp [chunks2]
  | case2 a => simp at h
  | case3 a b rest ih =>
    intro g hg
    rcases List.mem_cons.mp hg with hg | hg
    · simp [hg]
    · exact ih (by simp at h; omega) g hg

theorem chunks2_odd {α : Type} (l : List α) (h : l.length % 2 = 1) :
    ∃ gs a, chunks2 l = gs ++ [[a]] ∧ ∀ g ∈ gs, g.length = 2 := by
  induction l using chunks2.induct with
  | case1 => simp at h
  | case2 a => exact ⟨[], a, rfl, by simp⟩
  | case3 a b rest ih =>
    obtain ⟨gs, x, hx, hlen⟩ := ih (by simp at h; omega)
    refine ⟨[a, b] :: gs, x, by simp [chunks2, hx], ?_⟩
    intro g hg
    rcases List.mem_cons.mp hg with hg | hg
    · simp [hg]
    · exact hlen g hg

theorem chunks2_map {α β : Type} (f : α → β) (l : List α) :
    chunks2 (l.map f) = (chunks2 l).map (List.map f) := by
  induction l using chunks2.induct with
  | case1 => rfl
  | case2 a => rfl
  | case3 a b rest ih => simp [chunks2, ih]

theorem mem_of_mem_chunks2 {α : Type} {l g : List α} {x : α}
    (hg : g ∈ chunks2 l) (hx : x ∈ g) : x ∈ l := by
  rw [← chunks2_flatten l]
  exact List.mem_flatten.mpr ⟨g, hg, hx⟩

theorem lookup_of_mem_nodup {m : LedColorMap} {e : Nat × List Nat}
    (he : e ∈ m) (h : (m.map Prod.fst).Nodup) : m.lookup e.1 = some e.2 := by
  induction m with
  | nil => simp at he
  | cons a t ih =>
    rcases List.mem_cons.mp he with he | he
    · subst he
      simp [List.lookup]
    · have hne : e.1 ≠ a.1 := by
        intro hEq
        have h2 : e.1 ∈ t.map Prod.fst := List.mem_map_of_mem Prod.fst he
        rw [hEq] at h2
        exact (List.nodup_cons.mp h).1 h2
      have hb : (e.1 == a.1) = false := by simpa using hne
      simp only [List.lookup, hb]
      exact ih he (List.nodup_cons.mp h).2

theorem otherEntries_keys_nodup (m : LedColorMap)
    (h : (m.map Prod.fst).Nodup) : ((otherEntries m).map Prod.fst).Nodup :=
  ((List.filter_sublist m).map Prod.fst).nodup h

/-- Under the dict invariant, rebuilding each batch from the key slices by
dict lookup yields exactly the entry slices: the batch packets are the
chunks-of-two of the non-thumbstick entries, serialized. -/
theorem batchPackets_eq_groups (m : LedColorMap)
    (h : (m.map Prod.fst).Nodup) :
    batchPackets m = (chunks2 (otherEntries m)).map mkBatch := by
  have hnd := otherEntries_keys_nodup m h
  rw [show batchPackets m = (chunks2 ((otherEntries m).map Prod.fst)).map
    (fun ks => headerBatch ++ (ks.map
      (fun k => k :: lookupColor (otherEntries m) k)).flatten) from rfl]
  rw [chunks2_map, List.map_map]
  refine List.map_congr_left ?_
  intro g hg
  simp only [Function.comp, mkBatch]
  congr 1
  rw [List.map_map]
  refine congrArg List.flatten (List.map_congr_left ?_)
  intro e he
  have hmem : e ∈ otherEntries m := mem_of_mem_chunks2 hg he
  simp only [Function.comp]
  rw [show lookupColor (otherEntries m) e.1 = e.2 by
    simp [lookupColor, lookup_of_mem_nodup hmem hnd]]

theorem thumbEntries_eq_single {m : LedColorMap} {c : List Nat}
    (h : (m.map Prod.fst).Nodup) (hm : (0, c) ∈ m) :
    thumbEntries m = [(0, c)] := by
  induction m with
  | nil => simp at hm
  | cons a t ih =>
    rcases List.mem_cons.mp hm with hm | hm
    · subst hm
      have h0 : (0 : Nat) ∉ t.map Prod.fst := by
        simpa using (List.nodup_cons.mp h).1
      have ht : thumbEntries t = [] := by
        refine List.filter_eq_nil_iff.mpr ?_
        intro e he hbe
        refine h0 ?_
        have he1 : e.1 = 0 := by simpa using hbe
        simpa [← he1] using List.mem_map_of_mem Prod.fst he
      simp [thumbEntries, List.filter_cons] at ht ⊢
      exact ht
    · have hz : (a.1 == 0) = false := by
        have : a.1 ≠ 0 := by
          intro hEq
          have h0 : (0 : Nat) ∈ t.map Prod.fst := by
            simpa using List.mem_map_of_mem Prod.fst hm
          rw [← hEq] at h0
          exact (List.nodup_cons.mp h).1 h0
        simpa using this
      have := ih (List.nodup_cons.mp h).2 hm
      simpa [thumbEntries, List.filter_cons, hz] using this

theorem count_eq_one_of_mem_nodup {l : LedColorMap} {e : Nat × List Nat}
    (hn : l.Nodup) (he : e ∈ l) : l.count e = 1 := by
  induction l with
  | nil => simp at he
  | cons a t ih =>
    rcases List.mem_cons.mp he with he | he
    · subst he
      rw [List.count_cons_self]
      have h0 : e ∉ t := (List.nodup_cons.mp hn).1
      rw [List.count_eq_zero.mpr h0]
    · have hne : a ≠ e := by
        intro hEq
        exact (List.nodup_cons.mp hn).1 (hEq ▸ he)
      rw [List.count_cons]
      simp [hne]
      exact ih (List.nodup_cons.mp hn).2 he

/-! ## Claim theorems -/

/-- C1: for every LedColorMap (unique keys, as a Python dict) the encoder
emits, after the thumbstick packets, exactly ceil(N/2) = (N+1)/2 batch
packets for the N non-thumbstick entries; each batch packet is the header
`01 08 85 FF` followed by, per entry of its group, the LedId byte then the
color bytes; the groups are the entries taken two at a time in map order,
every group has size two except that an odd N makes the last group a single
entry. -/
theorem encode_batches_pairs (m : LedColorMap) (h : (m.map Prod.fst).Nodup) :
    encode m = thumbPackets m ++ (chunks2 (otherEntries m)).map mkBatch ∧
    (batchPackets m).length = ((otherEntries m).length + 1) / 2 ∧
    (∀ g ∈ chunks2 (otherEntries m), (mkBatch g).take 4 = headerBatch) ∧
    (chunks2 (otherEntries m)).flatten = otherEntries m ∧
    (∀ g ∈ chunks2 (otherEntries m), g.length = 1 ∨ g.length = 2) ∧
    ((otherEntries m).length % 2 = 0 → ∀ g ∈ chunks2 (otherEntries m), g.length = 2) ∧
    ((otherEntries m).length % 2 = 1 →
      ∃ gs e, chunks2 (otherEntries m) = gs ++ [[e]] ∧ ∀ g ∈ gs, g.length = 2) := by
  refine ⟨?_, ?_, ?_, chunks2_flatten _, length_of_mem_chunks2 _, chunks2_even _, chunks2_odd _⟩
  · rw [encode, batchPackets_eq_groups m h]
  · rw [batchPackets_eq_groups m h, List.length_map, chunks2_length]
  · intro g _
    simp [mkBatch, headerBatch]

/-- C1 witness: the theorem applied to the concrete three-entry map
`{0x11: FF0000, 0x10: 00FF00, 0x12: 0000FF}` (three non-thumbstick entries,
so two batch packets, the last with a single entry). -/
theorem encode_batches_pairs_witness :
    (([(0x11, [0xFF, 0, 0]), (0x10, [0, 0xFF, 0]), (0x12, [0, 0, 0xFF])].map
        Prod.fst).Nodup) ∧
    (batchPackets [(0x11, [0xFF, 0, 0]), (0x10, [0, 0xFF, 0]), (0x12, [0, 0, 0xFF])]).length =
      ((otherEntries [(0x11, [0xFF, 0, 0]), (0x10, [0, 0xFF, 0]), (0x12, [0, 0, 0xFF])]).length + 1) / 2 :=
  ⟨by decide,
   (encode_batches_pairs
     [(0x11, [0xFF, 0, 0]), (0x10, [0, 0xFF, 0]), (0x12, [0, 0, 0xFF])] (by decide)).2.1⟩

/-- C2 counterexample: the thumbstick packet for the color `00FF00` is the
8-byte `01 88 81 FF 00 00 FF 00`: after the 4-byte header there are exactly
4 payload bytes (1-byte LedId plus 3-byte color), not the 5 stated by the
claim. -/
theorem thumb_payload_not_five :
    encode [(0x00, [0, 0xFF, 0])] = [[0x01, 0x88, 0x81, 0xFF, 0x00, 0, 0xFF, 0]] ∧
    (((encode [(0x00, [0, 0xFF, 0])]).headD []).take 4 = headerThumb) ∧
    (((encode [(0x00, [0, 0xFF, 0])]).headD []).drop 4).length = 4 ∧
    (4 : Nat) ≠ 5 := by decide

/-- C2 (amended: the thumbstick packet carries 4, not 5, payload bytes after
the header): a map containing the thumbstick entry (LedId 0x00) yields for
it exactly one packet `01 88 81 FF` ++ LedId ++ color, emitted before all
batch packets; the packet is 8 bytes, 4 after the header, when the color is
3 bytes; a map containing only the thumbstick entry encodes to exactly that
single packet. -/
theorem encode_thumbstick (m : LedColorMap) (c : List Nat)
    (h : (m.map Prod.fst).Nodup) (hm : (0x00, c) ∈ m) :
    thumbPackets m = [headerThumb ++ [0x00] ++ c] ∧
    encode m = (headerThumb ++ [0x00] ++ c) :: batchPackets m ∧
    (c.length = 3 → (headerThumb ++ [0x00] ++ c).length = 8 ∧
      ((headerThumb ++ [0x00] ++ c).drop 4).length = 4) ∧
    encode [(0x00, c)] = [headerThumb ++ [0x00] ++ c] := by
  have ht : thumbPackets m = [headerThumb ++ [0x00] ++ c] := by
    rw [thumbPackets, thumbEntries_eq_single h hm]
    rfl
  refine ⟨ht, by rw [encode, ht]; rfl, ?_, ?_⟩
  · intro hc
    constructor <;> simp [headerThumb, hc]
  · simp [encode, thumbPackets, batchPackets, thumbEntries, otherEntries,
      List.filter_cons, chunks2]

/-- C2 witness: the theorem applied to the concrete map
`{0x00: 00FF00, 0x04: 0000FF}`. -/
theorem encode_thumbstick_witness :
    (([(0x00, [0, 0xFF, 0]), (0x04, [0, 0, 0xFF])].map Prod.fst).Nodup ∧
      (0x00, [0, 0xFF, 0]) ∈ [(0x00, [0, 0xFF, 0]), (0x04, [0, 0, 0xFF])]) ∧
    encode [(0x00, [0, 0xFF, 0]), (0x04, [0, 0, 0xFF])] =
      (headerThumb ++ [0x00] ++ [0, 0xFF, 0]) ::
        batchPackets [(0x00, [0, 0xFF, 0]), (0x04, [0, 0, 0xFF])] :=
  ⟨⟨by decide, by decide⟩,
   (encode_thumbstick [(0x00, [0, 0xFF, 0]), (0x04, [0, 0, 0xFF])]
     [0, 0xFF, 0] (by decide) (by decide)).2.1⟩

/-- C3: encoding never fails: every map (with the dict invariant and
byte-sized fields) yields a possibly empty list of well-formed packets, the
empty map yields the empty list, and the output is the thumbstick packets
followed by the batch packets in the map's iteration order. -/
theorem encode_total_ordered :
    encode [] = [] ∧
    ∀ m : LedColorMap, WFMap m →
      (∀ p ∈ encode m, WFPacket p) ∧
      ∃ ts bs, encode m = ts ++ bs ∧
        (∀ p ∈ ts, p.take 4 = headerThumb) ∧
        (∀ p ∈ bs, p.take 4 = headerBatch) ∧
        ts = (thumbEntries m).map (fun e => headerThumb ++ [e.1] ++ e.2) ∧
        bs = (chunks2 (otherEntries m)).map mkBatch := by
  refine ⟨rfl, ?_⟩
  intro m hm
  obtain ⟨hnd, hwf⟩ := hm
  constructor
  · intro p hp
    rw [encode, batchPackets_eq_groups m hnd] at hp
    rcases List.mem_append.mp hp with hp | hp
    · obtain ⟨e, he, rfl⟩ := List.mem_map.mp hp
      have hem : e ∈ m := List.mem_of_mem_filter he
      refine ⟨headerThumb, [e], Or.inl rfl, by simp, ?_, by simp⟩
      intro x hx
      rcases List.mem_cons.mp hx with hx | hx
      · subst hx; exact hwf x hem
      · simp at hx
    · obtain ⟨g, hg, rfl⟩ := List.mem_map.mp hp
      refine ⟨headerBatch, g, Or.inr rfl, ?_, ?_, rfl⟩
      · rcases length_of_mem_chunks2 _ g hg with h1 | h1 <;>
          (intro he; subst he; simp at h1)
      · intro x hx
        exact hwf x (List.mem_of_mem_filter (mem_of_mem_chunks2 hg hx))
  · refine ⟨thumbPackets m, (chunks2 (otherEntries m)).map mkBatch,
      by rw [encode, batchPackets_eq_groups m hnd], ?_, ?_, rfl, rfl⟩
    · intro p hp
      obtain ⟨e, he, rfl⟩ := List.mem_map.mp hp
      simp [headerThumb]
    · intro p hp
      obtain ⟨g, hg, rfl⟩ := List.mem_map.mp hp
      simp [mkBatch, headerBatch]

/-- C3 witness: the theorem applied to the concrete map
`{0x00: 010203, 0x05: 040506}`. -/
theorem encode_total_ordered_witness :
    WFMap [(0x00, [1, 2, 3]), (0x05, [4, 5, 6])] ∧
    ∀ p ∈ encode [(0x00, [1, 2, 3]), (0x05, [4, 5, 6])], WFPacket p :=
  ⟨by constructor <;> decide,
   (encode_total_ordered.2 [(0x00, [1, 2, 3]), (0x05, [4, 5, 6])]
     ⟨by decide, by decide⟩).1⟩

/-- C9: with the dict invariant and 3-byte colors, the entries carried by
the packets are exactly the entries of the map, each exactly once (their
multiset equals the map's, counts 1 and 0), and every packet is nothing but
its fixed 4-byte header followed by its serialized entries. -/
theorem encode_entries_exactly_once (m : LedColorMap) (h : WFMap m) :
    (thumbEntries m ++ (chunks2 (otherEntries m)).flatten).Perm m ∧
    (∀ e ∈ m, (thumbEntries m ++ (chunks2 (otherEntries m)).flatten).count e = 1) ∧
    (∀ e, e ∉ m → (thumbEntries m ++ (chunks2 (otherEntries m)).flatten).count e = 0) ∧
    encode m = (thumbEntries m).map (fun e => headerThumb ++ e.1 :: e.2) ++
      (chunks2 (otherEntries m)).map mkBatch := by
  obtain ⟨hnd, hwf⟩ := h
  have hperm : (thumbEntries m ++ (chunks2 (otherEntries m)).flatten).Perm m := by
    rw [chunks2_flatten]
    exact List.filter_append_perm (fun e => e.1 == 0x00) m
  have mnd : m.Nodup := List.Nodup.of_map Prod.fst hnd
  refine ⟨hperm, ?_, ?_, ?_⟩
  · intro e he
    exact (hperm.countP_eq (fun x => x == e)).trans
      (count_eq_one_of_mem_nodup mnd he)
  · intro e he
    exact (hperm.countP_eq (fun x => x == e)).trans
      (List.count_eq_zero.mpr he)
  · have hth : thumbPackets m =
        (thumbEntries m).map (fun e => headerThumb ++ e.1 :: e.2) := by
      refine List.map_congr_left ?_
      intro e _
      simp
    rw [encode, batchPackets_eq_groups m hnd, hth]

/-- C9 witness: the theorem applied to the concrete map
`{0x04: 010203, 0x00: 040506, 0x05: 070809}`. -/
theorem encode_entries_exactly_once_witness :
    WFMap [(0x04, [1, 2, 3]), (0x00, [4, 5, 6]), (0x05, [7, 8, 9])] ∧
    (thumbEntries [(0x04, [1, 2, 3]), (0x00, [4, 5, 6]), (0x05, [7, 8, 9])] ++
      (chunks2 (otherEntries
        [(0x04, [1, 2, 3]), (0x00, [4, 5, 6]), (0x05, [7, 8, 9])])).flatten).Perm
      [(0x04, [1, 2, 3]), (0x00, [4, 5, 6]), (0x05, [7, 8, 9])] :=
  ⟨⟨by decide, by decide⟩,
   (encode_entries_exactly_once
     [(0x04, [1, 2, 3]), (0x00, [4, 5, 6]), (0x05, [7, 8, 9])]
     ⟨by decide, by decide⟩).1⟩

/-- C10: with the dict invariant and 3-byte colors, every emitted packet is
exactly 8 bytes (thumbstick packet or single-entry batch packet) or exactly
12 bytes (two-entry batch packet). -/
theorem encode_packet_lengths (m : LedColorMap) (h : WFMap m) :
    ∀ p ∈ encode m, p.length = 8 ∨ p.length = 12 := by
  obtain ⟨hnd, hwf⟩ := h
  intro p hp
  rw [encode, batchPackets_eq_groups m hnd] at hp
  rcases List.mem_append.mp hp with hp | hp
  · obtain ⟨e, he, rfl⟩ := List.mem_map.mp hp
    left
    have h3 := (hwf e (List.mem_of_mem_filter he)).2
    simp [headerThumb, h3]
  · obtain ⟨g, hg, rfl⟩ := List.mem_map.mp hp
    have hsub : ∀ e ∈ g, e.2.length = 3 := fun e he =>
      (hwf e (List.mem_of_mem_filter (mem_of_mem_chunks2 hg he))).2
    rcases length_of_mem_chunks2 _ g hg with h1 | h1
    · obtain ⟨e, rfl⟩ := List.length_eq_one.mp h1
      left
      simp [mkBatch, headerBatch, hsub e (by simp)]
    · obtain ⟨e1, e2, rfl⟩ := List.length_eq_two.mp h1
      right
      simp [mkBatch, headerBatch, hsub e1 (by simp), hsub e2 (by simp)]

/-- C10 witness: the theorem applied to the concrete map
`{0x00: 010203, 0x05: 040506, 0x06: 070809, 0x07: 0A0B0C}` (one 8-byte
thumbstick packet, one 12-byte batch packet, one 8-byte batch packet). -/
theorem encode_packet_lengths_witness :
    WFMap [(0x00, [1, 2, 3]), (0x05, [4, 5, 6]), (0x06, [7, 8, 9]), (0x07, [10, 11, 12])] ∧
    ∀ p ∈ encode [(0x00, [1, 2, 3]), (0x05, [4, 5, 6]), (0x06, [7, 8, 9]), (0x07, [10, 11, 12])],
      p.length = 8 ∨ p.length = 12 :=
  ⟨⟨by decide, by decide⟩,
   encode_packet_lengths
     [(0x00, [1, 2, 3]), (0x05, [4, 5, 6]), (0x06, [7, 8, 9]), (0x07, [10, 11, 12])]
     ⟨by decide, by decide⟩⟩

/-- C4 (code behavior at the failing input): the 6-character string
`"FF  00"` contains non-hexadecimal characters (two spaces), yet
`hex_to_rgb` does not fail: `bytes.fromhex` skips ASCII whitespace between
byte pairs and returns the 2-byte value `FF 00`, which is not even a 3-byte
RgbColor. -/
theorem hex_to_rgb_whitespace_accepted :
    hex_to_rgb ("FF  00").toList = some [0xFF, 0x00] ∧
    ("FF  00").toList.length = 6 ∧
    (' ' ∈ ("FF  00").toList ∧ isHexDigitCh ' ' = false) ∧
    hex_to_rgb ("FF  00").toList ≠ none ∧
    ((hex_to_rgb ("FF  00").toList).getD []).length = 2 := by decide

set_option maxRecDepth 100000 in
/-- C5 counterexample: the fade-up loop `frange(0.1, 1.0, 0.05)` never
attains 1.0: in binary64 arithmetic the value after 18 additions of the
`0.05` literal to the `0.1` literal is 1.0000000000000002 (strictly above
1.0, so the loop has already stopped), and likewise the fade-down loop never
returns to the value of the `0.1` literal. -/
theorem breathing_ascent_never_reaches_one :
    (fun v => fadd v dLit005)^[18] dLit01 = ⟨4503599627370497, -52⟩ ∧
    dblt d1 ((fun v => fadd v dLit005)^[18] dLit01) = true ∧
    breathUp.all (fun v => !(deq v d1)) = true ∧
    breathDown.all (fun v => !(deq v dLit01)) = true := by decide

set_option maxRecDepth 1000000 in
/-- C5 (amended): in binary64 arithmetic the fade-up loop yields exactly 18
values, starting at exactly the `0.1` literal and never attaining 1.0 (its
values drift, e.g. ending near 0.95000000000000028); the fade-down loop
yields exactly 18 values, starting at exactly 1.0 and never reattaining
0.1; hence one full period is exactly 36 frames, in which 0.1 is attained
exactly at frame 0 and 1.0 exactly at frame 18, and frame 36 restarts at
exactly 0.1; each frame's channel values are `int(c * v)`, truncation toward
zero of the binary64 product (e.g. base (255, 128, 9) at v = 0.1 gives
(25, 12, 0)). -/
theorem breathing_envelope_behavior :
    breathUp.length = 18 ∧ breathDown.length = 18 ∧ breathPeriod.length = 36 ∧
    breathUp.head? = some dLit01 ∧ breathDown.head? = some d1 ∧
    breathUp.all (fun v => !(deq v d1)) = true ∧
    breathDown.all (fun v => !(deq v dLit01)) = true ∧
    frange 100 dLit01 d1 dLit005 = frange 200 dLit01 d1 dLit005 ∧
    frange 100 d1 dLit01 (fneg dLit005) = frange 200 d1 dLit01 (fneg dLit005) ∧
    breathV 0 = dLit01 ∧ breathV 18 = d1 ∧ breathV 36 = dLit01 ∧
    deq (breathPeriod.getD 17 d0) ⟨8556839292003945, -53⟩ = true ∧
    breathScaled [255, 128, 9] dLit01 = [25, 12, 0] := by decide

set_option maxRecDepth 30000

theorem allIter_spec (f : Dyadic → Dyadic) (p : Dyadic → Bool) :
    ∀ (n : Nat) (h : Dyadic), allIter f p n h = true →
      ∀ k, k < n → p (f^[k] h) = true := by
  intro n
  induction n with
  | zero => intro h _ k hk; omega
  | succ n ih =>
    intro h hall k hk
    rw [allIter] at hall
    obtain ⟨h1, h2⟩ := Bool.and_eq_true_iff.mp hall
    cases k with
    | zero => simpa using h1
    | succ k =>
      rw [Function.iterate_succ_apply]
      exact ih (f h) h2 k (by omega)

theorem countIter_spec (f : Dyadic → Dyadic) (p : Dyadic → Bool) :
    ∀ (n : Nat) (h : Dyadic),
      countIter f p n h =
        ((List.range n).filter (fun k => p (f^[k] h))).length := by
  intro n
  induction n with
  | zero => intro h; rfl
  | succ n ih =>
    intro h
    have hfm : ((List.range n).map Nat.succ).filter (fun k => p (f^[k] h)) =
        ((List.range n).filter
          (fun k => p (f^[k] (f h)))).map Nat.succ := by
      rw [List.filter_map]
      congr 1
    rw [countIter, List.range_succ_eq_map, List.filter_cons]
    have hq1 : p (f^[0] h) = p h := by simp
    rw [hq1, hfm, ih (f h)]
    by_cases hp : p h = true
    · simp [hp]
      omega
    · simp [hp]

theorem allIter_add (f : Dyadic → Dyadic) (p : Dyadic → Bool) (b : Nat) :
    ∀ (a : Nat) (h : Dyadic),
      allIter f p (a + b) h = (allIter f p a h && allIter f p b (f^[a] h)) := by
  intro a
  induction a with
  | zero =>
    intro h
    simp [allIter]
  | succ a ih =>
    intro h
    have h1 : a + 1 + b = (a + b) + 1 := by omega
    rw [h1]
    show (p h && allIter f p (a + b) (f h)) =
      ((p h && allIter f p a (f h)) && allIter f p b (f^[a + 1] h))
    rw [ih (f h), Function.iterate_succ_apply, Bool.and_assoc]

theorem countIter_add (f : Dyadic → Dyadic) (p : Dyadic → Bool) (b : Nat) :
    ∀ (a : Nat) (h : Dyadic),
      countIter f p (a + b) h =
        countIter f p a h + countIter f p b (f^[a] h) := by
  intro a
  induction a with
  | zero =>
    intro h
    simp [countIter]
  | succ a ih =>
    intro h
    have h1 : a + 1 + b = (a + b) + 1 := by omega
    rw [h1]
    show (if p h then 1 else 0) + countIter f p (a + b) (f h) =
      ((if p h then 1 else 0) + countIter f p a (f h)) + countIter f p b (f^[a + 1] h)
    rw [ih (f h), Function.iterate_succ_apply, Nat.add_assoc]

theorem hueAt_succ (n : Nat) : hueAt (n + 1) = hueStep (hueAt n) :=
  Function.iterate_succ_apply' hueStep n d0

/-- The hue after 50 frames, 0.5000000000000002. -/
theorem hueMid50 : hueStep^[50] d0 = ⟨4503599627370498, -53⟩ := by decide

theorem hueAt_100 : hueAt 100 = d0 := by
  show hueStep^[100] d0 = d0
  rw [show (100 : Nat) = 50 + 50 from rfl, Function.iterate_add_apply, hueMid50]
  decide

theorem hueAt_add_100 (n : Nat) : hueAt (n + 100) = hueAt n := by
  show hueStep^[n + 100] d0 = hueStep^[n] d0
  rw [Function.iterate_add_apply]
  rw [show hueStep^[100] d0 = d0 from hueAt_100]

theorem hueAt_mod (n : Nat) : hueAt n = hueAt (n % 100) := by
  induction n using Nat.strong_induction_on with
  | _ n ih =>
    by_cases h : n < 100
    · rw [Nat.mod_eq_of_lt h]
    · have he : n = (n - 100) + 100 := by omega
      rw [he, hueAt_add_100, ih (n - 100) (by omega)]
      congr 1
      omega

/-- C6: the hue state entering each frame always lies in [0.0, 1.0); when
`hue + 0.01` does not exceed 1.0 the next frame's hue is exactly that sum,
and when it does exceed 1.0 it wraps to 0.0; the hue is not reset when the
36-frame brightness envelope completes (hue at frame 36 is nonzero); after
100 frames the hue has wrapped back to 0.0, having wrapped exactly once
among the first 100 frames. -/
theorem rainbow_hue_behavior :
    (∀ n, dble d0 (hueAt n) = true ∧ dblt (hueAt n) d1 = true) ∧
    (∀ n, dblt d1 (fadd (hueAt n) dLit001) = false →
      hueAt (n + 1) = fadd (hueAt n) dLit001) ∧
    (∀ n, dblt d1 (fadd (hueAt n) dLit001) = true → hueAt (n + 1) = d0) ∧
    deq (hueAt 36) d0 = false ∧
    hueAt 100 = d0 ∧
    ((List.range 100).filter
      (fun k => dblt d1 (fadd (hueAt k) dLit001))).length = 1 := by
  refine ⟨?_, ?_, ?_, by decide, hueAt_100, ?_⟩
  · intro n
    rw [hueAt_mod n]
    have hall : allIter hueStep (fun h2 => dble d0 h2 && dblt h2 d1) 100 d0
        = true := by
      rw [show (100 : Nat) = 50 + 50 from rfl,
        allIter_add hueStep _ 50 50 d0, hueMid50]
      decide
    have hb := allIter_spec _ _ 100 d0 hall (n % 100) (Nat.mod_lt _ (by omega))
    exact Bool.and_eq_true_iff.mp hb
  · intro n hcond
    rw [hueAt_succ]
    simp only [hueStep]
    rw [hcond]
    rfl
  · intro n hcond
    rw [hueAt_succ]
    simp only [hueStep]
    rw [hcond]
    rfl
  · have hs := countIter_spec hueStep
      (fun h2 => dblt d1 (fadd h2 dLit001)) 100 d0
    rw [show ((List.range 100).filter
        (fun k => dblt d1 (fadd (hueAt k) dLit001))) =
      ((List.range 100).filter
        (fun k => dblt d1 (fadd (hueStep^[k] d0) dLit001))) from rfl]
    rw [← hs, show (100 : Nat) = 50 + 50 from rfl,
      countIter_add hueStep _ 50 50 d0, hueMid50]
    decide

/-- C6 witness: the theorem applied at frame 5 (no wrap there). -/
theorem rainbow_hue_behavior_witness :
    (dblt d1 (fadd (hueAt 5) dLit001) = false) ∧
    hueAt 6 = fadd (hueAt 5) dLit001 :=
  ⟨by decide, rainbow_hue_behavior.2.1 5 (by decide)⟩

/-- C7 (code behavior at the failing input): running
`solr-cli.py --device right --buttons 1 FF0000` against a present device
with an active kernel driver detaches the driver and claims interface 1,
then hits the unknown-button early return, which exits `main` without ever
reaching the `try/finally`: the interface-release and kernel-driver-reattach
steps never execute on this path. -/
theorem cli_unknown_button_skips_release :
    cliMain argsUnknownButton envPlain = [Ev.detach, Ev.claim] ∧
    Ev.claim ∈ cliMain argsUnknownButton envPlain ∧
    Ev.release ∉ cliMain argsUnknownButton envPlain ∧
    Ev.reattach ∉ cliMain argsUnknownButton envPlain := by decide

/-- C8: resolving a button list maps each number through `BUTTON_TO_LED` in
input order when every number is known; at the first unknown number it fails
reporting exactly that number; and whenever resolution fails, `main`
performs no device writes at all (no LED of the preceding valid numbers is
acted upon). -/
theorem resolveButtons_behavior :
    (∀ bs : List Int, (∀ b ∈ bs, (BUTTON_TO_LED.lookup b).isSome) →
      resolveButtons bs =
        Except.ok (bs.map (fun b => (BUTTON_TO_LED.lookup b).getD 0))) ∧
    (∀ (pre : List Int) (b : Int) (post : List Int),
      (∀ x ∈ pre, (BUTTON_TO_LED.lookup x).isSome) →
      BUTTON_TO_LED.lookup b = none →
      resolveButtons (pre ++ b :: post) = Except.error b) ∧
    (∀ (a : Args) (env : Env), ledsToSet a = none →
      ∀ pk, Ev.write pk ∉ cliMain a env) := by
  refine ⟨?_, ?_, ?_⟩
  · intro bs h
    induction bs with
    | nil => rfl
    | cons b rest ih =>
      obtain ⟨led, hled⟩ := Option.isSome_iff_exists.mp (h b (by simp))
      simp only [resolveButtons, hled]
      rw [ih (fun x hx => h x (by simp [hx]))]
      simp [hled]
  · intro pre b post hpre hb
    induction pre with
    | nil =>
      rw [List.nil_append]
      simp only [resolveButtons, hb]
    | cons x rest ih =>
      obtain ⟨led, hled⟩ := Option.isSome_iff_exists.mp (hpre x (by simp))
      rw [List.cons_append]
      simp only [resolveButtons, hled]
      rw [ih (fun y hy => hpre y (by simp [hy]))]
  · intro a env h pk
    simp only [cliMain, h]
    repeat' split <;> simp_all

/-- C8 witness: the theorem applied to the all-known list `[5, 6]` and the
list `[5, 1, 6]`, which fails at button 1 after the valid button 5. -/
theorem resolveButtons_behavior_witness :
    ((∀ b ∈ ([5, 6] : List Int), (BUTTON_TO_LED.lookup b).isSome) ∧
      resolveButtons [5, 6] =
        Except.ok (([5, 6] : List Int).map
          (fun b => (BUTTON_TO_LED.lookup b).getD 0))) ∧
    resolveButtons ([5] ++ 1 :: [6]) = Except.error 1 :=
  ⟨⟨by decide, resolveButtons_behavior.1 [5, 6] (by decide)⟩,
   resolveButtons_behavior.2.1 [5] 1 [6] (by decide) (by decide)⟩
